import Mathlib

/-!
Verification of the Cloud-Network-Simulator core against its
natural-language specification.

The definitions below are a shallow embedding of the Python sources:
`congestion.py` (LinkQueue, CongestionController, QueueAwarePacketManager),
`packet.py` (Packet state machine) and `routing/router.py` (DijkstraRouter,
PathManager).  Simulation timestamps (Python floats) are modelled as
rationals; packet payloads are irrelevant to every claim, so a queued
packet is identified by a natural-number tag.  The single source of
nondeterminism, `random.randint(0, len(queue)-1)` in the random-drop
branch of `LinkQueue.enqueue`, is modelled by an oracle argument
`ridx : Nat` reduced modulo the queue length; `ridx % len` ranges over
exactly the values `randint` can produce.
-/

namespace CloudNetSim

/-- `DropPolicy` enum from `congestion.py`. -/
inductive DropPolicy where
  | TAIL_DROP
  | HEAD_DROP
  | RANDOM_DROP
deriving DecidableEq, Repr

/-- One entry of `LinkQueue.queue`: the dict
`{'packet': packet, 'enqueue_time': current_time}`. -/
structure QItem where
  packet : Nat
  enqueue_time : ℚ
deriving DecidableEq, Repr

/-- The `LinkQueue` dataclass from `congestion.py`.  The deque is a list,
oldest item first (Python appends at the right, pops at the left). -/
structure LinkQueue where
  link_id : String
  capacity : Nat
  drop_policy : DropPolicy
  queue : List QItem
  packets_enqueued : Nat
  packets_dequeued : Nat
  packets_dropped : Nat
  total_queue_delay : ℚ
deriving DecidableEq, Repr

namespace LinkQueue

/-- `CongestionController.create_link_queue` builds a `LinkQueue` with the
dataclass defaults: empty deque, all counters zero. -/
def create (link_id : String) (capacity : Nat) (drop_policy : DropPolicy) :
    LinkQueue :=
  { link_id := link_id
    capacity := capacity
    drop_policy := drop_policy
    queue := []
    packets_enqueued := 0
    packets_dequeued := 0
    packets_dropped := 0
    total_queue_delay := 0 }

/-- `LinkQueue.enqueue` from `congestion.py` lines 36-88.  The attempt
counter is bumped first; if there is room the item is appended; otherwise
`packets_dropped` is bumped (before the policy dispatch) and the policy
decides: tail-drop rejects, head-drop evicts the oldest item and accepts,
random-drop evicts the item at the oracle index and accepts.  Both
eviction branches guard on a non-empty deque, exactly as the Python
`if self.queue:` does. -/
def enqueue (q : LinkQueue) (packet : Nat) (current_time : ℚ) (ridx : Nat) :
    LinkQueue × Bool :=
  let q := { q with packets_enqueued := q.packets_enqueued + 1 }
  if q.queue.length < q.capacity then
    ({ q with queue := q.queue ++ [⟨packet, current_time⟩] }, true)
  else
    let q := { q with packets_dropped := q.packets_dropped + 1 }
    match q.drop_policy with
    | .TAIL_DROP => (q, false)
    | .HEAD_DROP =>
        if q.queue.isEmpty then (q, true)
        else ({ q with queue := q.queue.tail ++ [⟨packet, current_time⟩] }, true)
    | .RANDOM_DROP =>
        if q.queue.isEmpty then (q, true)
        else
          let idx := ridx % q.queue.length
          ({ q with queue := q.queue.eraseIdx idx ++ [⟨packet, current_time⟩] },
           true)

/-- `LinkQueue.dequeue` from `congestion.py` lines 90-112: `None` on an
empty deque; otherwise pop the oldest item, compute
`queuing_delay = current_time - enqueue_time`, accumulate it and bump the
dequeue counter. -/
def dequeue (q : LinkQueue) (current_time : ℚ) :
    LinkQueue × Option (Nat × ℚ) :=
  match q.queue with
  | [] => (q, none)
  | item :: rest =>
      let queuing_delay := current_time - item.enqueue_time
      ({ q with
          queue := rest
          total_queue_delay := q.total_queue_delay + queuing_delay
          packets_dequeued := q.packets_dequeued + 1 },
       some (item.packet, queuing_delay))

/-- `LinkQueue.get_size`. -/
def get_size (q : LinkQueue) : Nat := q.queue.length

/-- `LinkQueue.get_utilization`: `0.0` when capacity is zero, else
`len(queue) / capacity`. -/
def get_utilization (q : LinkQueue) : ℚ :=
  if q.capacity = 0 then 0 else (q.queue.length : ℚ) / (q.capacity : ℚ)

/-- `LinkQueue.is_full`. -/
def is_full (q : LinkQueue) : Bool := q.capacity ≤ q.queue.length

end LinkQueue

/-- A single operation driven at a `LinkQueue`: an enqueue attempt (with
the packet tag, the simulation time and the random-drop oracle) or a
dequeue at a given time. -/
inductive QOp where
  | enq (packet : Nat) (t : ℚ) (ridx : Nat)
  | deq (t : ℚ)
deriving DecidableEq, Repr

/-- The simulation time carried by an operation. -/
def QOp.time : QOp → ℚ
  | .enq _ t _ => t
  | .deq t => t

/-- Apply one operation to a queue, keeping the post-state. -/
def applyOp (q : LinkQueue) (op : QOp) : LinkQueue :=
  match op with
  | .enq p t r => (q.enqueue p t r).1
  | .deq t => (q.dequeue t).1

/-- Run a finite sequence of operations, oldest first. -/
def runOps (q : LinkQueue) (ops : List QOp) : LinkQueue :=
  ops.foldl applyOp q

example :
    ((LinkQueue.create "L1" 1 .TAIL_DROP).enqueue 0 2 0).2 = true := by decide

example :
    (runOps (LinkQueue.create "L1" 1 .TAIL_DROP)
      [.enq 0 2 0, .enq 1 3 0]).packets_dropped = 1 := by decide

example :
    (runOps (LinkQueue.create "L1" 1 .HEAD_DROP)
      [.enq 0 2 0, .enq 1 3 0]).packets_dropped = 1 := by decide

example :
    ((runOps (LinkQueue.create "L1" 1 .TAIL_DROP) [.enq 0 2 0]).dequeue 5).2 =
      some (0, 3) := by
  norm_num [runOps, applyOp, LinkQueue.enqueue, LinkQueue.dequeue,
    LinkQueue.create]

/-! Basic preservation lemmas about `enqueue`, `dequeue` and `runOps`. -/

lemma enqueue_capacity (q : LinkQueue) (p : Nat) (t : ℚ) (r : Nat) :
    (q.enqueue p t r).1.capacity = q.capacity := by
  unfold LinkQueue.enqueue
  dsimp only
  split
  · rfl
  · split <;> first | rfl | (split <;> rfl)

lemma dequeue_capacity (q : LinkQueue) (t : ℚ) :
    (q.dequeue t).1.capacity = q.capacity := by
  unfold LinkQueue.dequeue
  split <;> rfl

lemma applyOp_capacity (q : LinkQueue) (op : QOp) :
    (applyOp q op).capacity = q.capacity := by
  cases op with
  | enq p t r => exact enqueue_capacity q p t r
  | deq t => exact dequeue_capacity q t

lemma runOps_capacity (q : LinkQueue) (ops : List QOp) :
    (runOps q ops).capacity = q.capacity := by
  induction ops generalizing q with
  | nil => rfl
  | cons op ops ih =>
      show (runOps (applyOp q op) ops).capacity = q.capacity
      rw [ih, applyOp_capacity]

/-- A generic preservation principle for `runOps`. -/
lemma runOps_inv (P : LinkQueue → Prop)
    (hstep : ∀ q op, P q → P (applyOp q op)) :
    ∀ (ops : List QOp) (q : LinkQueue), P q → P (runOps q ops) := by
  intro ops
  induction ops with
  | nil => intro q h; exact h
  | cons op ops ih =>
      intro q h
      exact ih (applyOp q op) (hstep q op h)

lemma enqueue_length_le (q : LinkQueue) (p : Nat) (t : ℚ) (r : Nat)
    (h : q.queue.length ≤ q.capacity) :
    (q.enqueue p t r).1.queue.length ≤ q.capacity := by
  obtain ⟨lid, cap, pol, que, pe, pdq, pdr, tqd⟩ := q
  simp only at h
  unfold LinkQueue.enqueue
  dsimp only
  split
  · rename_i hlt
    simp only [List.length_append, List.length_cons, List.length_nil]
    omega
  · cases pol with
    | TAIL_DROP => exact h
    | HEAD_DROP =>
        dsimp only
        split
        · exact h
        · rename_i hne
          have hq : que ≠ [] := by simpa [List.isEmpty_iff] using hne
          have hlen : 0 < que.length := List.length_pos.mpr hq
          simp only [List.length_append, List.length_tail,
            List.length_cons, List.length_nil]
          omega
    | RANDOM_DROP =>
        dsimp only
        split
        · exact h
        · rename_i hne
          have hq : que ≠ [] := by simpa [List.isEmpty_iff] using hne
          have hlen : 0 < que.length := List.length_pos.mpr hq
          have hidx : r % que.length < que.length := Nat.mod_lt _ hlen
          have herase := List.length_eraseIdx_add_one hidx
          simp only [List.length_append, List.length_cons, List.length_nil]
          omega

lemma applyOp_length_le (q : LinkQueue) (op : QOp)
    (h : q.queue.length ≤ q.capacity) :
    (applyOp q op).queue.length ≤ q.capacity := by
  cases op with
  | enq p t r => exact enqueue_length_le q p t r h
  | deq t =>
      obtain ⟨lid, cap, pol, que, pe, pdq, pdr, tqd⟩ := q
      simp only at h
      show (LinkQueue.dequeue _ t).1.queue.length ≤ cap
      unfold LinkQueue.dequeue
      cases que with
      | nil => exact h
      | cons item rest =>
          simp only [List.length_cons] at h
          dsimp only
          omega

lemma conservation_step (q : LinkQueue) (op : QOp)
    (h : q.queue.length + q.packets_dequeued + q.packets_dropped =
      q.packets_enqueued) :
    (applyOp q op).queue.length + (applyOp q op).packets_dequeued +
      (applyOp q op).packets_dropped = (applyOp q op).packets_enqueued := by
  obtain ⟨lid, cap, pol, que, pe, pdq, pdr, tqd⟩ := q
  simp only at h
  cases op with
  | enq p t r =>
      simp only [applyOp]
      unfold LinkQueue.enqueue
      dsimp only
      split
      · simp only [List.length_append, List.length_cons, List.length_nil]
        omega
      · cases pol with
        | TAIL_DROP => dsimp only; omega
        | HEAD_DROP =>
            dsimp only
            split
            · dsimp only; omega
            · rename_i hne
              have hq : que ≠ [] := by simpa [List.isEmpty_iff] using hne
              have hlen : 0 < que.length := List.length_pos.mpr hq
              dsimp only
              simp only [List.length_append, List.length_tail,
                List.length_cons, List.length_nil]
              omega
        | RANDOM_DROP =>
            dsimp only
            split
            · dsimp only; omega
            · rename_i hne
              have hq : que ≠ [] := by simpa [List.isEmpty_iff] using hne
              have hlen : 0 < que.length := List.length_pos.mpr hq
              have hidx : r % que.length < que.length := Nat.mod_lt _ hlen
              have herase := List.length_eraseIdx_add_one hidx
              dsimp only
              simp only [List.length_append, List.length_cons, List.length_nil]
              omega
  | deq t =>
      simp only [applyOp]
      unfold LinkQueue.dequeue
      cases que with
      | nil => exact h
      | cons item rest =>
          simp only [List.length_cons] at h
          dsimp only
          omega

/-! ## Claim theorems for the LinkQueue -/

/-- A concrete full head-drop queue of capacity 1, reached from a freshly
created queue by one accepted enqueue. -/
def c1exQ : LinkQueue := ⟨"L1", 1, .HEAD_DROP, [⟨0, 2⟩], 1, 0, 0, 0⟩

/-- C1 counterexample: on a full head-drop queue, `enqueue` DOES increment
`packets_dropped` (the `self.packets_dropped += 1` at congestion.py line 58
runs before the policy dispatch), contradicting the claim that only the
tail-drop case increments the drop counter.  The call still returns
accepted. -/
theorem c1_head_drop_increments_drop_counter :
    c1exQ = runOps (LinkQueue.create "L1" 1 .HEAD_DROP) [.enq 0 2 0] ∧
    c1exQ.is_full = true ∧
    c1exQ.drop_policy = .HEAD_DROP ∧
    c1exQ.packets_dropped = 0 ∧
    (c1exQ.enqueue 1 3 0).2 = true ∧
    (c1exQ.enqueue 1 3 0).1.packets_dropped = 1 := by
  refine ⟨by decide, by decide, by decide, by decide, by decide, by decide⟩

/-- C1 (amended): every enqueue attempt increments `packets_enqueued` by
exactly 1.  When the queue has room, the drop counter is unchanged and the
call is accepted.  When the queue is full, `packets_dropped` is incremented
by exactly 1 under EVERY drop policy; tail-drop then rejects the incoming
packet while head-drop and random-drop return accepted. -/
theorem c1_enqueue_counters (q : LinkQueue) (p : Nat) (t : ℚ) (r : Nat) :
    (q.enqueue p t r).1.packets_enqueued = q.packets_enqueued + 1 ∧
    (q.queue.length < q.capacity →
      (q.enqueue p t r).1.packets_dropped = q.packets_dropped ∧
      (q.enqueue p t r).2 = true) ∧
    (q.capacity ≤ q.queue.length →
      (q.enqueue p t r).1.packets_dropped = q.packets_dropped + 1 ∧
      (q.drop_policy = .TAIL_DROP → (q.enqueue p t r).2 = false) ∧
      (q.drop_policy ≠ .TAIL_DROP → (q.enqueue p t r).2 = true)) := by
  obtain ⟨lid, cap, pol, que, pe, pdq, pdr, tqd⟩ := q
  unfold LinkQueue.enqueue
  dsimp only
  refine ⟨?_, ?_, ?_⟩
  · split
    · rfl
    · cases pol with
      | TAIL_DROP => rfl
      | HEAD_DROP => dsimp only; split <;> rfl
      | RANDOM_DROP => dsimp only; split <;> rfl
  · intro hlt
    rw [if_pos hlt]
    exact ⟨rfl, rfl⟩
  · intro hge
    rw [if_neg (by omega)]
    cases pol with
    | TAIL_DROP => exact ⟨rfl, fun _ => rfl, fun hne => absurd rfl hne⟩
    | HEAD_DROP =>
        dsimp only
        refine ⟨?_, ?_, ?_⟩
        · split <;> rfl
        · intro hc; exact absurd hc (by decide)
        · intro _; split <;> rfl
    | RANDOM_DROP =>
        dsimp only
        refine ⟨?_, ?_, ?_⟩
        · split <;> rfl
        · intro hc; exact absurd hc (by decide)
        · intro _; split <;> rfl

/-- Witness for C1 (amended) at the concrete full head-drop queue. -/
theorem c1_enqueue_counters_witness :
    (c1exQ.enqueue 7 5 0).1.packets_enqueued = c1exQ.packets_enqueued + 1 ∧
    (c1exQ.enqueue 7 5 0).1.packets_dropped = c1exQ.packets_dropped + 1 ∧
    (c1exQ.enqueue 7 5 0).2 = true :=
  ⟨(c1_enqueue_counters c1exQ 7 5 0).1,
   ((c1_enqueue_counters c1exQ 7 5 0).2.2 (by decide)).1,
   ((c1_enqueue_counters c1exQ 7 5 0).2.2 (by decide)).2.2 (by decide)⟩

/-- C2: starting from a freshly created queue with capacity `C ≥ 1`, after
every finite sequence of enqueue/dequeue operations the queue length lies
in `[0, C]` and the utilization `length / C` lies in `[0, 1]`. -/
theorem c2_queue_length_within_capacity
    (link_id : String) (C : Nat) (pol : DropPolicy) (ops : List QOp)
    (hC : 1 ≤ C) :
    0 ≤ (runOps (LinkQueue.create link_id C pol) ops).queue.length ∧
    (runOps (LinkQueue.create link_id C pol) ops).queue.length ≤ C ∧
    0 ≤ (runOps (LinkQueue.create link_id C pol) ops).get_utilization ∧
    (runOps (LinkQueue.create link_id C pol) ops).get_utilization ≤ 1 := by
  set q := runOps (LinkQueue.create link_id C pol) ops with hq
  have hcap : q.capacity = C := runOps_capacity _ _
  have hlen : q.queue.length ≤ q.capacity := by
    refine runOps_inv (fun s => s.queue.length ≤ s.capacity) ?_ ops _ ?_
    · intro s op hs
      calc (applyOp s op).queue.length ≤ s.capacity := applyOp_length_le s op hs
        _ = (applyOp s op).capacity := (applyOp_capacity s op).symm
    · simp [LinkQueue.create]
  have hlenC : q.queue.length ≤ C := hcap ▸ hlen
  have hCpos : (0 : ℚ) < (C : ℚ) := by exact_mod_cast hC
  refine ⟨Nat.zero_le _, hlenC, ?_, ?_⟩
  · unfold LinkQueue.get_utilization
    rw [hcap]
    rw [if_neg (by omega)]
    positivity
  · unfold LinkQueue.get_utilization
    rw [hcap]
    rw [if_neg (by omega)]
    rw [div_le_one hCpos]
    exact_mod_cast hlenC

/-- Witness for C2 on a concrete capacity-2 random-drop queue driven by a
mixed operation sequence. -/
theorem c2_witness :
    1 ≤ 2 ∧
    (runOps (LinkQueue.create "L2" 2 .RANDOM_DROP)
        [.enq 0 1 0, .enq 1 2 0, .enq 2 3 1, .deq 4, .enq 3 5 0]).queue.length
      ≤ 2 :=
  ⟨by decide,
   (c2_queue_length_within_capacity "L2" 2 .RANDOM_DROP
      [.enq 0 1 0, .enq 1 2 0, .enq 2 3 1, .deq 4, .enq 3 5 0]
      (by decide)).2.1⟩

/-- A concrete full tail-drop queue of capacity 1. -/
def c5exQ : LinkQueue := ⟨"L5", 1, .TAIL_DROP, [⟨0, 2⟩], 1, 0, 0, 0⟩

/-- C5: under the tail-drop policy, an enqueue onto a full queue (length
equal to capacity) is rejected, leaves the queue contents (hence length)
unchanged, and increments `packets_dropped` by exactly 1. -/
theorem c5_taildrop_full_enqueue (q : LinkQueue) (p : Nat) (t : ℚ) (r : Nat)
    (hpol : q.drop_policy = .TAIL_DROP)
    (hfull : q.queue.length = q.capacity) :
    (q.enqueue p t r).2 = false ∧
    (q.enqueue p t r).1.queue = q.queue ∧
    (q.enqueue p t r).1.packets_dropped = q.packets_dropped + 1 := by
  obtain ⟨lid, cap, pol, que, pe, pdq, pdr, tqd⟩ := q
  simp only at hpol hfull
  subst hpol
  unfold LinkQueue.enqueue
  dsimp only
  rw [if_neg (by omega)]
  exact ⟨rfl, rfl, rfl⟩

/-- Witness for C5 at a concrete full tail-drop queue of capacity 1. -/
theorem c5_taildrop_full_enqueue_witness :
    (c5exQ.enqueue 9 4 0).2 = false ∧
    (c5exQ.enqueue 9 4 0).1.queue = c5exQ.queue ∧
    (c5exQ.enqueue 9 4 0).1.packets_dropped = c5exQ.packets_dropped + 1 :=
  c5_taildrop_full_enqueue c5exQ 9 4 0 (by decide) (by decide)

/-- C10: the conservation invariant.  From a freshly created queue, after
any finite sequence of enqueue/dequeue operations (under any drop policy),
`length + packets_dequeued + packets_dropped = packets_enqueued`;
equivalently the current length equals the attempts minus the dequeues
minus the drops. -/
theorem c10_queue_conservation
    (link_id : String) (C : Nat) (pol : DropPolicy) (ops : List QOp) :
    (runOps (LinkQueue.create link_id C pol) ops).queue.length +
      (runOps (LinkQueue.create link_id C pol) ops).packets_dequeued +
      (runOps (LinkQueue.create link_id C pol) ops).packets_dropped =
      (runOps (LinkQueue.create link_id C pol) ops).packets_enqueued := by
  refine runOps_inv
    (fun s => s.queue.length + s.packets_dequeued + s.packets_dropped =
      s.packets_enqueued) ?_ ops _ ?_
  · intro s op hs
    exact conservation_step s op hs
  · simp [LinkQueue.create]

/-! ## Dequeue: functional behaviour and delay non-negativity (C6) -/

lemma dequeue_empty (q : LinkQueue) (now : ℚ) (h : q.queue = []) :
    q.dequeue now = (q, none) := by
  obtain ⟨lid, cap, pol, que, pe, pdq, pdr, tqd⟩ := q
  simp only at h
  subst h
  rfl

lemma dequeue_cons (q : LinkQueue) (now : ℚ) (item : QItem) (rest : List QItem)
    (h : q.queue = item :: rest) :
    q.dequeue now =
      ({ q with
          queue := rest
          total_queue_delay := q.total_queue_delay + (now - item.enqueue_time)
          packets_dequeued := q.packets_dequeued + 1 },
       some (item.packet, now - item.enqueue_time)) := by
  obtain ⟨lid, cap, pol, que, pe, pdq, pdr, tqd⟩ := q
  simp only at h
  subst h
  rfl

/-- Every buffered enqueue timestamp is at most `T`. -/
def itemsLE (q : LinkQueue) (T : ℚ) : Prop :=
  ∀ item ∈ q.queue, item.enqueue_time ≤ T

lemma itemsLE_applyOp (q : LinkQueue) (op : QOp) (T : ℚ)
    (hop : op.time ≤ T) (h : itemsLE q T) : itemsLE (applyOp q op) T := by
  obtain ⟨lid, cap, pol, que, pe, pdq, pdr, tqd⟩ := q
  unfold itemsLE at h ⊢
  simp only at h
  cases op with
  | enq p t r =>
      simp only [QOp.time] at hop
      simp only [applyOp]
      unfold LinkQueue.enqueue
      dsimp only
      split
      · intro item hmem
        rcases List.mem_append.mp hmem with hmem | hmem
        · exact h item hmem
        · simp only [List.mem_singleton] at hmem
          subst hmem
          exact hop
      · cases pol with
        | TAIL_DROP => exact h
        | HEAD_DROP =>
            dsimp only
            split
            · exact h
            · intro item hmem
              rcases List.mem_append.mp hmem with hmem | hmem
              · exact h item (List.tail_subset que hmem)
              · simp only [List.mem_singleton] at hmem
                subst hmem
                exact hop
        | RANDOM_DROP =>
            dsimp only
            split
            · exact h
            · intro item hmem
              rcases List.mem_append.mp hmem with hmem | hmem
              · exact h item (List.eraseIdx_subset _ _ hmem)
              · simp only [List.mem_singleton] at hmem
                subst hmem
                exact hop
  | deq t =>
      simp only [applyOp]
      unfold LinkQueue.dequeue
      cases que with
      | nil => exact h
      | cons item rest =>
          intro x hmem
          exact h x (List.mem_cons_of_mem item hmem)

lemma itemsLE_runOps (ops : List QOp) (q : LinkQueue) (T : ℚ)
    (hops : ∀ op ∈ ops, op.time ≤ T) (h : itemsLE q T) :
    itemsLE (runOps q ops) T := by
  induction ops generalizing q with
  | nil => exact h
  | cons op ops ih =>
      exact ih (applyOp q op)
        (fun x hx => hops x (List.mem_cons_of_mem op hx))
        (itemsLE_applyOp q op T (hops op (List.mem_cons_self op ops)) h)

/-- C6: `dequeue(now)` on an empty queue returns the empty result and
changes nothing; on a non-empty queue it removes the oldest (front) item,
returns it with `queuing_delay = now - enqueue_time` exactly, adds that
delay to `total_queue_delay` and bumps `packets_dequeued` by 1.  Along any
operation history whose timestamps never exceed `now`, every successful
dequeue at `now` returns a non-negative queuing delay. -/
theorem c6_dequeue_spec (link_id : String) (C : Nat) (pol : DropPolicy)
    (ops : List QOp) (now : ℚ)
    (hops : ∀ op ∈ ops, op.time ≤ now) :
    ((runOps (LinkQueue.create link_id C pol) ops).queue = [] →
      (runOps (LinkQueue.create link_id C pol) ops).dequeue now =
        (runOps (LinkQueue.create link_id C pol) ops, none)) ∧
    (∀ item rest,
      (runOps (LinkQueue.create link_id C pol) ops).queue = item :: rest →
      (runOps (LinkQueue.create link_id C pol) ops).dequeue now =
        ({ runOps (LinkQueue.create link_id C pol) ops with
            queue := rest
            total_queue_delay :=
              (runOps (LinkQueue.create link_id C pol) ops).total_queue_delay +
                (now - item.enqueue_time)
            packets_dequeued :=
              (runOps (LinkQueue.create link_id C pol) ops).packets_dequeued + 1 },
         some (item.packet, now - item.enqueue_time))) ∧
    (∀ p d,
      ((runOps (LinkQueue.create link_id C pol) ops).dequeue now).2 =
        some (p, d) → 0 ≤ d) := by
  set q := runOps (LinkQueue.create link_id C pol) ops with hq
  have hle : itemsLE q now := by
    refine itemsLE_runOps ops _ now hops ?_
    intro item hmem
    simp [LinkQueue.create] at hmem
  refine ⟨fun h => dequeue_empty q now h,
    fun item rest h => dequeue_cons q now item rest h, ?_⟩
  intro p d hsome
  cases hque : q.queue with
  | nil =>
      rw [dequeue_empty q now hque] at hsome
      exact absurd hsome (by simp)
  | cons item rest =>
      rw [dequeue_cons q now item rest hque] at hsome
      simp only [Option.some.injEq, Prod.mk.injEq] at hsome
      obtain ⟨hp, hd⟩ := hsome
      have hmem : item ∈ q.queue := by
        rw [hque]; exact List.mem_cons_self item rest
      have := hle item hmem
      rw [← hd]
      linarith

/-- Witness for C6: one enqueue at time 2, dequeue at time 5, delay 3 ≥ 0. -/
theorem c6_dequeue_spec_witness :
    ((runOps (LinkQueue.create "L6" 1 .TAIL_DROP) [.enq 0 2 0]).dequeue 5).2 =
      some (0, 5 - 2) ∧ (0 : ℚ) ≤ 5 - 2 := by
  have hops : ∀ op ∈ [QOp.enq 0 2 0], op.time ≤ (5 : ℚ) := by
    intro op hop
    simp only [List.mem_singleton] at hop
    subst hop
    norm_num [QOp.time]
  have h := c6_dequeue_spec "L6" 1 .TAIL_DROP [.enq 0 2 0] 5 hops
  have hque : (runOps (LinkQueue.create "L6" 1 .TAIL_DROP)
      [.enq 0 2 0]).queue = ⟨0, 2⟩ :: [] := rfl
  have heq := h.2.1 ⟨0, 2⟩ [] hque
  constructor
  · rw [heq]
  · exact h.2.2 0 (5 - 2) (by rw [heq])

/-! ## Congestion window (C3)

`CongestionController.process_packet_on_link` adjusts the per-link
congestion window after every admission decision (congestion.py lines
227-246): `_handle_packet_drop` on rejection, `_handle_packet_success` on
acceptance.  `create_link_queue` initializes the window to
`float(capacity)`, and `_handle_packet_success` caps it at the link's
`queue_size`, which is the capacity the queue was created with
(main.py line 1276 passes `link.queue_size` as the capacity). -/

/-- `CongestionController._handle_packet_drop`:
`CWND = max(1.0, CWND / 2.0)`. -/
def handle_packet_drop (w : ℚ) : ℚ := max 1 (w / 2)

/-- `CongestionController._handle_packet_success`:
`CWND = min(max_cwnd, CWND + 0.1)` with `max_cwnd` the link's queue
capacity. -/
def handle_packet_success (max_cwnd : ℚ) (w : ℚ) : ℚ :=
  min max_cwnd (w + 1 / 10)

/-- One admission outcome applied to the window: `true` is an acceptance,
`false` a rejection, as dispatched in `process_packet_on_link`. -/
def window_step (cap : ℚ) (w : ℚ) (accepted : Bool) : ℚ :=
  if accepted then handle_packet_success cap w else handle_packet_drop w

/-- The congestion window after a history of admission outcomes, starting
from the initial value `float(capacity)` set by `create_link_queue`. -/
def runWindow (cap : ℚ) (events : List Bool) : ℚ :=
  events.foldl (window_step cap) cap

lemma window_step_bounds (cap w : ℚ) (hcap : 1 ≤ cap)
    (h1 : 1 ≤ w) (h2 : w ≤ cap) (b : Bool) :
    1 ≤ window_step cap w b ∧ window_step cap w b ≤ cap := by
  cases b with
  | false =>
      unfold window_step handle_packet_drop
      simp only [Bool.false_eq_true, if_neg, ite_false]
      constructor
      · exact le_max_left 1 _
      · exact max_le hcap (by linarith)
  | true =>
      unfold window_step handle_packet_success
      simp only [ite_true]
      constructor
      · exact le_min hcap (by linarith)
      · exact min_le_left _ _

lemma window_fold_bounds (cap : ℚ) (hcap : 1 ≤ cap) :
    ∀ (events : List Bool) (w : ℚ), 1 ≤ w → w ≤ cap →
      1 ≤ events.foldl (window_step cap) w ∧
        events.foldl (window_step cap) w ≤ cap := by
  intro events
  induction events with
  | nil => intro w h1 h2; exact ⟨h1, h2⟩
  | cons b events ih =>
      intro w h1 h2
      have hb := window_step_bounds cap w hcap h1 h2 b
      exact ih (window_step cap w b) hb.1 hb.2

/-- C3: the congestion window starts at the link's queue capacity and,
for every history of admission outcomes, stays within `[1, capacity]`.
A rejection (`_handle_packet_drop`) never increases the window, strictly
decreases it when it is above the floor, and leaves it at `1` when it is
at the floor.  An acceptance (`_handle_packet_success`) never decreases
the window, strictly increases it when it is below the cap, and leaves it
at `capacity` when it is at the cap. -/
theorem c3_congestion_window (cap : ℚ) (events : List Bool) (w : ℚ)
    (hcap : 1 ≤ cap) (hw1 : 1 ≤ w) (hw2 : w ≤ cap) :
    runWindow cap [] = cap ∧
    (1 ≤ runWindow cap events ∧ runWindow cap events ≤ cap) ∧
    (handle_packet_drop w ≤ w ∧
      (1 < w → handle_packet_drop w < w) ∧
      (w = 1 → handle_packet_drop w = 1)) ∧
    (w ≤ handle_packet_success cap w ∧
      (w < cap → w < handle_packet_success cap w) ∧
      (w = cap → handle_packet_success cap w = cap)) := by
  refine ⟨rfl, window_fold_bounds cap hcap events cap hcap le_rfl,
    ⟨?_, ?_, ?_⟩, ⟨?_, ?_, ?_⟩⟩
  · unfold handle_packet_drop
    exact max_le hw1 (by linarith)
  · intro hlt
    unfold handle_packet_drop
    exact max_lt hlt (by linarith)
  · intro heq
    subst heq
    unfold handle_packet_drop
    norm_num
  · unfold handle_packet_success
    exact le_min hw2 (by linarith)
  · intro hlt
    unfold handle_packet_success
    exact lt_min hlt (by linarith)
  · intro heq
    subst heq
    unfold handle_packet_success
    exact min_eq_left (by linarith)

/-- Witness for C3 at capacity 2, window 3/2, history [accept, reject]. -/
theorem c3_congestion_window_witness :
    (1 : ℚ) ≤ 2 ∧ (1 : ℚ) ≤ 3 / 2 ∧ (3 / 2 : ℚ) ≤ 2 ∧
    1 ≤ runWindow 2 [true, false] ∧ runWindow 2 [true, false] ≤ 2 := by
  have h := c3_congestion_window 2 [true, false] (3 / 2)
    (by norm_num) (by norm_num) (by norm_num)
  exact ⟨by norm_num, by norm_num, by norm_num, h.2.1.1, h.2.1.2⟩

/-! ## Packet lifecycle (C4)

Shallow embedding of `packet.py`: the `PacketState` enum and the `Packet`
dataclass with its three state-changing methods.  `current_node_id` is
read with a default value where Python indexes `self.path[self.path_index]`;
in the branch that assigns it the index is always in range, so the default
is never produced. -/

/-- `PacketState` enum from `packet.py`. -/
inductive PacketState where
  | QUEUED
  | IN_TRANSIT
  | DELIVERED
  | DROPPED
deriving DecidableEq, Repr

/-- The `Packet` dataclass from `packet.py`. -/
structure Packet where
  id : String
  source_node_id : String
  destination_node_id : String
  creation_time : ℚ
  sent_time : ℚ
  delivery_time : ℚ
  size : Nat
  state : PacketState
  path : List String
  path_index : Nat
  current_node_id : String
  current_link_index : Nat
  link_start_time : ℚ
  link_latency : ℚ
deriving DecidableEq, Repr

namespace Packet

/-- `Packet.move_to_next_link` from `packet.py` lines 64-93.  If the
packet is already at the end of its path it is marked DELIVERED; otherwise
`path_index` advances, the bookkeeping fields are updated, the state
becomes IN_TRANSIT, and if the new index is the last node the packet is
immediately marked DELIVERED. -/
def move_to_next_link (p : Packet) (current_time : ℚ) : Packet × Bool :=
  if p.path.length ≤ p.path_index + 1 then
    ({ p with state := .DELIVERED, delivery_time := current_time }, true)
  else
    let p1 := { p with path_index := p.path_index + 1 }
    let p2 := { p1 with
      current_node_id := p1.path.getD p1.path_index ""
      current_link_index := p1.path_index - 1
      link_start_time := current_time
      state := PacketState.IN_TRANSIT }
    if p2.path.length - 1 ≤ p2.path_index then
      ({ p2 with state := .DELIVERED, delivery_time := current_time }, true)
    else (p2, false)

/-- `Packet.mark_delivered`. -/
def mark_delivered (p : Packet) (delivery_time : ℚ) : Packet :=
  { p with state := .DELIVERED, delivery_time := delivery_time }

/-- `Packet.mark_dropped` (also the assignment performed by
`QueueAwarePacketManager.drop_packet`, which sets the same field before
calling `mark_dropped`). -/
def mark_dropped (p : Packet) : Packet :=
  { p with state := .DROPPED }

end Packet

/-- A concrete DELIVERED packet. -/
def c4exPkt : Packet :=
  { id := "PKT0001", source_node_id := "A", destination_node_id := "B",
    creation_time := 0, sent_time := 0, delivery_time := 7, size := 1024,
    state := .DELIVERED, path := ["A", "B"], path_index := 1,
    current_node_id := "B", current_link_index := 0, link_start_time := 0,
    link_latency := 1 }

/-- C4 counterexample: the mutators carry no terminal-state guard, so a
subsequent operation on a DELIVERED packet changes its state again —
`mark_dropped` moves a DELIVERED packet to DROPPED, a transition out of
DELIVERED that the claim forbids. -/
theorem c4_terminal_not_guarded :
    c4exPkt.state = .DELIVERED ∧
    c4exPkt.mark_dropped.state = .DROPPED ∧
    PacketState.DROPPED ≠ PacketState.DELIVERED :=
  ⟨rfl, rfl, by decide⟩

/-- A concrete QUEUED packet on a 3-node path, about to take its first
hop. -/
def c4wPkt : Packet :=
  { id := "PKT0002", source_node_id := "A", destination_node_id := "C",
    creation_time := 0, sent_time := 0, delivery_time := 0, size := 1024,
    state := .QUEUED, path := ["A", "B", "C"], path_index := 0,
    current_node_id := "A", current_link_index := 0, link_start_time := 0,
    link_latency := 1 }

/-- C4 (amended): the state field always holds exactly one of the four
states, and each operation moves the state only along the allowed forward
edges: `move_to_next_link` always lands in IN_TRANSIT or DELIVERED
(DELIVERED exactly when it reports the destination reached),
`mark_delivered` lands in DELIVERED, `mark_dropped` in DROPPED, and no
operation ever re-enters QUEUED.  The terminality clause of the original
claim is dropped: the mutators are unguarded, and terminal states persist
only because the manager stops invoking operations on terminal packets
(they are removed from `active_packets`). -/
theorem c4_state_transitions (p : Packet) (t : ℚ) :
    (p.state = .QUEUED ∨ p.state = .IN_TRANSIT ∨ p.state = .DELIVERED ∨
      p.state = .DROPPED) ∧
    ((p.move_to_next_link t).1.state = .IN_TRANSIT ∨
      (p.move_to_next_link t).1.state = .DELIVERED) ∧
    ((p.move_to_next_link t).2 = true →
      (p.move_to_next_link t).1.state = .DELIVERED) ∧
    ((p.move_to_next_link t).2 = false →
      (p.move_to_next_link t).1.state = .IN_TRANSIT) ∧
    (p.mark_delivered t).state = .DELIVERED ∧
    p.mark_dropped.state = .DROPPED ∧
    (p.move_to_next_link t).1.state ≠ .QUEUED ∧
    (p.mark_delivered t).state ≠ .QUEUED ∧
    p.mark_dropped.state ≠ .QUEUED := by
  have hmove : ((p.move_to_next_link t).1.state = .IN_TRANSIT ∨
      (p.move_to_next_link t).1.state = .DELIVERED) ∧
      ((p.move_to_next_link t).2 = true →
        (p.move_to_next_link t).1.state = .DELIVERED) ∧
      ((p.move_to_next_link t).2 = false →
        (p.move_to_next_link t).1.state = .IN_TRANSIT) := by
    unfold Packet.move_to_next_link
    dsimp only
    split
    · exact ⟨Or.inr rfl, fun _ => rfl, fun h => Bool.noConfusion h⟩
    · split
      · exact ⟨Or.inr rfl, fun _ => rfl, fun h => Bool.noConfusion h⟩
      · exact ⟨Or.inl rfl, fun h => Bool.noConfusion h, fun _ => rfl⟩
  refine ⟨?_, hmove.1, hmove.2.1, hmove.2.2, rfl, rfl, ?_, ?_, ?_⟩
  · cases hp : p.state
    · exact Or.inl rfl
    · exact Or.inr (Or.inl rfl)
    · exact Or.inr (Or.inr (Or.inl rfl))
    · exact Or.inr (Or.inr (Or.inr rfl))
  · rcases hmove.1 with h | h <;> rw [h] <;> decide
  · simp [Packet.mark_delivered]
  · simp [Packet.mark_dropped]

/-- Witness for C4 (amended): the first hop of a QUEUED packet on a
3-node path does not reach the destination and lands in IN_TRANSIT. -/
theorem c4_state_transitions_witness :
    (c4wPkt.move_to_next_link 4).2 = false ∧
    (c4wPkt.move_to_next_link 4).1.state = .IN_TRANSIT :=
  ⟨rfl, (c4_state_transitions c4wPkt 4).2.2.2.1 rfl⟩

/-! ## Router (C7, C8)

Shallow embedding of `routing/router.py`.  The NetworkX `nx.Graph` is a
node set plus undirected edges carrying a `weight` (latency) and a
`bandwidth` attribute; `get_edge_data` returns the attribute record of the
edge between two nodes in either orientation, or `None`.  Either attribute
may be absent, as the Python code guards with `'weight' in edge_data` /
`'bandwidth' in edge_data`. -/

/-- Edge attributes: `weight` (latency) and `bandwidth`, each possibly
absent. -/
structure EdgeData where
  weight : Option ℚ
  bandwidth : Option ℚ
deriving DecidableEq, Repr

/-- An undirected graph: node identities plus attributed edges. -/
structure Graph where
  nodes : List String
  edges : List (String × String × EdgeData)
deriving DecidableEq, Repr

namespace Graph

/-- `self.graph.get_edge_data(node_a, node_b)`: the attribute record of
the undirected edge between the two nodes, or `None`. -/
def get_edge_data (g : Graph) (a b : String) : Option EdgeData :=
  (g.edges.find? (fun e => (e.1 == a && e.2.1 == b) || (e.1 == b && e.2.1 == a))).map
    (fun e => e.2.2)

/-- Two nodes are adjacent when an edge record exists between them. -/
def adj (g : Graph) (a b : String) : Bool :=
  (g.get_edge_data a b).isSome

/-- The latency attribute of the edge between a consecutive node pair,
when the edge and the attribute both exist. -/
def weightOf (g : Graph) (pr : String × String) : Option ℚ :=
  (g.get_edge_data pr.1 pr.2).bind EdgeData.weight

/-- The bandwidth attribute of the edge between a consecutive node pair,
when the edge and the attribute both exist. -/
def bwOf (g : Graph) (pr : String × String) : Option ℚ :=
  (g.get_edge_data pr.1 pr.2).bind EdgeData.bandwidth

/-- The loop body of `get_path_cost`: add the edge weight of a
consecutive node pair when the edge exists and carries a `weight`
attribute, else leave the accumulator unchanged. -/
def costStep (g : Graph) (total_cost : ℚ) (pr : String × String) : ℚ :=
  match g.get_edge_data pr.1 pr.2 with
  | some ed =>
      match ed.weight with
      | some w => total_cost + w
      | none => total_cost
  | none => total_cost

/-- `DijkstraRouter.get_path_cost` (router.py lines 72-101): 0 for paths
shorter than 2 nodes, else the sum over consecutive pairs of the edge
weight, silently skipping pairs with no edge or no weight attribute. -/
def get_path_cost (g : Graph) (path : List String) : ℚ :=
  if path.length < 2 then 0
  else (path.zip path.tail).foldl (g.costStep) 0

/-- The loop body of `get_bottleneck_bandwidth`: take the running minimum
with the edge bandwidth of a consecutive node pair when the edge exists
and carries a `bandwidth` attribute; `none` stands for the initial
`float('inf')` (`min(inf, b) = b`). -/
def bwStep (g : Graph) (acc : Option ℚ) (pr : String × String) :
    Option ℚ :=
  match g.get_edge_data pr.1 pr.2 with
  | some ed =>
      match ed.bandwidth with
      | some b =>
          match acc with
          | some m => some (min m b)
          | none => some b
      | none => acc
  | none => acc

/-- `DijkstraRouter.get_bottleneck_bandwidth` (router.py lines 103-136):
0 for paths shorter than 2 nodes; otherwise the running minimum of the
bandwidths present along the path, starting from `float('inf')`,
returning 0 when no link carried a bandwidth attribute. -/
def get_bottleneck_bandwidth (g : Graph) (path : List String) : ℚ :=
  if path.length < 2 then 0
  else
    match (path.zip path.tail).foldl (g.bwStep) none with
    | none => 0
    | some m => m

end Graph

/-- The dictionary returned by `DijkstraRouter.get_path_info` (router.py
lines 138-187), minus the `links` list, which merely collects Link objects
from the NetworkManager for display. -/
structure PathInfoDict where
  path_nodes : List String
  hop_count : Nat
  total_latency : ℚ
  bottleneck_bandwidth : ℚ
  throughput : ℚ
deriving DecidableEq, Repr

/-- `DijkstraRouter.get_path_info`: zeros for paths shorter than 2 nodes,
else total latency from `get_path_cost`, bottleneck from
`get_bottleneck_bandwidth`, `hop_count = len(path) - 1`, and
`throughput = bottleneck_bandwidth`. -/
def Graph.get_path_info (g : Graph) (path : List String) : PathInfoDict :=
  if path.length < 2 then
    { path_nodes := path, hop_count := 0, total_latency := 0,
      bottleneck_bandwidth := 0, throughput := 0 }
  else
    { path_nodes := path, hop_count := path.length - 1,
      total_latency := g.get_path_cost path,
      bottleneck_bandwidth := g.get_bottleneck_bandwidth path,
      throughput := g.get_bottleneck_bandwidth path }

/-! Fold characterizations for the two path metrics. -/

lemma cost_foldl_eq (g : Graph) :
    ∀ (L : List (String × String)) (acc : ℚ),
      (∀ pr ∈ L, (g.weightOf pr).isSome) →
      L.foldl (g.costStep) acc =
        acc + (L.map (fun pr => (g.weightOf pr).getD 0)).sum := by
  intro L
  induction L with
  | nil => intro acc _; simp
  | cons pr L ih =>
      intro acc hall
      have hpr := hall pr (List.mem_cons_self pr L)
      simp only [Graph.weightOf] at hpr
      cases hed : g.get_edge_data pr.1 pr.2 with
      | none => simp only [hed, Option.isSome_none] at hpr; cases hpr
      | some ed =>
          cases hw : ed.weight with
          | none =>
              simp only [hed, Option.some_bind, hw, Option.isSome_none] at hpr
              cases hpr
          | some w =>
              have hstep : g.costStep acc pr = acc + w := by
                simp [Graph.costStep, hed, hw]
              have hgetD : (g.weightOf pr).getD 0 = w := by
                simp [Graph.weightOf, hed, hw]
              simp only [List.foldl_cons, List.map_cons, List.sum_cons,
                hstep, hgetD]
              rw [ih (acc + w)
                (fun x hx => hall x (List.mem_cons_of_mem pr hx))]
              ring

lemma bottleneck_foldl_some (g : Graph) :
    ∀ (L : List (String × String)) (m : ℚ),
      (∀ pr ∈ L, (g.bwOf pr).isSome) →
      L.foldl (g.bwStep) (some m) =
        some ((L.map (fun pr => (g.bwOf pr).getD 0)).foldl min m) := by
  intro L
  induction L with
  | nil => intro m _; simp
  | cons pr L ih =>
      intro m hall
      have hpr := hall pr (List.mem_cons_self pr L)
      simp only [Graph.bwOf] at hpr
      cases hed : g.get_edge_data pr.1 pr.2 with
      | none => simp only [hed, Option.isSome_none] at hpr; cases hpr
      | some ed =>
          cases hb : ed.bandwidth with
          | none =>
              simp only [hed, Option.some_bind, hb, Option.isSome_none] at hpr
              cases hpr
          | some b =>
              have hstep : g.bwStep (some m) pr = some (min m b) := by
                simp [Graph.bwStep, hed, hb]
              have hgetD : (g.bwOf pr).getD 0 = b := by
                simp [Graph.bwOf, hed, hb]
              simp only [List.foldl_cons, List.map_cons, hstep, hgetD]
              exact ih (min m b)
                (fun x hx => hall x (List.mem_cons_of_mem pr hx))

lemma foldl_min_le_init : ∀ (L : List ℚ) (a : ℚ), L.foldl min a ≤ a := by
  intro L
  induction L with
  | nil => intro a; exact le_rfl
  | cons b L ih =>
      intro a
      calc (b :: L).foldl min a = L.foldl min (min a b) := rfl
        _ ≤ min a b := ih (min a b)
        _ ≤ a := min_le_left a b

lemma foldl_min_le_mem :
    ∀ (L : List ℚ) (a b : ℚ), b ∈ L → L.foldl min a ≤ b := by
  intro L
  induction L with
  | nil => intro a b hb; cases hb
  | cons c L ih =>
      intro a b hb
      rcases List.mem_cons.mp hb with hb | hb
      · subst hb
        calc (b :: L).foldl min a = L.foldl min (min a b) := rfl
          _ ≤ min a b := foldl_min_le_init L (min a b)
          _ ≤ b := min_le_right a b
      · exact ih (min a c) b hb

lemma foldl_min_mem :
    ∀ (L : List ℚ) (a : ℚ), L.foldl min a = a ∨ L.foldl min a ∈ L := by
  intro L
  induction L with
  | nil => intro a; exact Or.inl rfl
  | cons b L ih =>
      intro a
      rcases ih (min a b) with h | h
      · rcases le_total a b with hab | hab
        · left
          calc (b :: L).foldl min a = L.foldl min (min a b) := rfl
            _ = min a b := h
            _ = a := min_eq_left hab
        · right
          have hv : (b :: L).foldl min a = b := by
            calc (b :: L).foldl min a = L.foldl min (min a b) := rfl
              _ = min a b := h
              _ = b := min_eq_right hab
          rw [hv]
          exact List.mem_cons_self b L
      · right
        exact List.mem_cons_of_mem b h

/-- C7: for a resolved path (at least two nodes, every consecutive pair an
edge carrying both attributes), `get_path_info` reports total latency
equal to the sum of the consecutive link latencies, bottleneck bandwidth
equal to the minimum consecutive link bandwidth (a member of, and a lower
bound on, the bandwidth list), and a throughput estimate equal to the
bottleneck bandwidth. -/
theorem c7_path_metrics (g : Graph) (path : List String)
    (hlen : 2 ≤ path.length)
    (hw : ∀ pr ∈ path.zip path.tail, (g.weightOf pr).isSome)
    (hb : ∀ pr ∈ path.zip path.tail, (g.bwOf pr).isSome) :
    (g.get_path_info path).total_latency =
      ((path.zip path.tail).map (fun pr => (g.weightOf pr).getD 0)).sum ∧
    ((g.get_path_info path).bottleneck_bandwidth ∈
        (path.zip path.tail).map (fun pr => (g.bwOf pr).getD 0) ∧
      ∀ b ∈ (path.zip path.tail).map (fun pr => (g.bwOf pr).getD 0),
        (g.get_path_info path).bottleneck_bandwidth ≤ b) ∧
    (g.get_path_info path).throughput =
      (g.get_path_info path).bottleneck_bandwidth ∧
    (g.get_path_info path).total_latency = g.get_path_cost path ∧
    (g.get_path_info path).bottleneck_bandwidth =
      g.get_bottleneck_bandwidth path := by
  have hnlt : ¬ path.length < 2 := by omega
  have hinfo : g.get_path_info path =
      { path_nodes := path, hop_count := path.length - 1,
        total_latency := g.get_path_cost path,
        bottleneck_bandwidth := g.get_bottleneck_bandwidth path,
        throughput := g.get_bottleneck_bandwidth path } := by
    unfold Graph.get_path_info
    rw [if_neg hnlt]
  -- the consecutive-pair list is non-empty
  have hzip : path.zip path.tail ≠ [] := by
    cases path with
    | nil => simp at hlen
    | cons a as =>
        cases as with
        | nil => simp at hlen
        | cons b bs => simp [List.zip]
  have hcost : g.get_path_cost path =
      ((path.zip path.tail).map (fun pr => (g.weightOf pr).getD 0)).sum := by
    unfold Graph.get_path_cost
    rw [if_neg hnlt]
    rw [cost_foldl_eq g (path.zip path.tail) 0 hw]
    ring
  have hbw : g.get_bottleneck_bandwidth path ∈
        (path.zip path.tail).map (fun pr => (g.bwOf pr).getD 0) ∧
      ∀ b ∈ (path.zip path.tail).map (fun pr => (g.bwOf pr).getD 0),
        g.get_bottleneck_bandwidth path ≤ b := by
    cases hzc : path.zip path.tail with
    | nil => exact absurd hzc hzip
    | cons pr0 L =>
        have hall : ∀ pr ∈ pr0 :: L, (g.bwOf pr).isSome := by
          rw [← hzc]; exact hb
        have hpr0 := hall pr0 (List.mem_cons_self pr0 L)
        have hL : ∀ pr ∈ L, (g.bwOf pr).isSome :=
          fun x hx => hall x (List.mem_cons_of_mem pr0 hx)
        have hval : g.get_bottleneck_bandwidth path =
            (L.map (fun pr => (g.bwOf pr).getD 0)).foldl min
              ((g.bwOf pr0).getD 0) := by
          unfold Graph.get_bottleneck_bandwidth
          rw [if_neg hnlt]
          simp only [hzc]
          simp only [Graph.bwOf] at hpr0
          cases hed : g.get_edge_data pr0.1 pr0.2 with
          | none => simp only [hed, Option.isSome_none] at hpr0; cases hpr0
          | some ed =>
              cases hb0 : ed.bandwidth with
              | none =>
                  simp only [hed, Option.some_bind, hb0,
                    Option.isSome_none] at hpr0
                  cases hpr0
              | some b0 =>
                  have hstep : g.bwStep none pr0 = some b0 := by
                    simp [Graph.bwStep, hed, hb0]
                  have hgetD : (g.bwOf pr0).getD 0 = b0 := by
                    simp [Graph.bwOf, hed, hb0]
                  simp only [List.foldl_cons, hstep, hgetD]
                  rw [bottleneck_foldl_some g L b0 hL]
        constructor
        · rw [hval]
          simp only [List.map_cons]
          rcases foldl_min_mem (L.map (fun pr => (g.bwOf pr).getD 0))
              ((g.bwOf pr0).getD 0) with h | h
          · rw [h]; exact List.mem_cons_self _ _
          · exact List.mem_cons_of_mem _ h
        · intro b hbmem
          rw [hval]
          simp only [List.map_cons, List.mem_cons] at hbmem
          rcases hbmem with hbmem | hbmem
          · subst hbmem
            exact foldl_min_le_init _ _
          · exact foldl_min_le_mem _ _ b hbmem
  rw [hinfo]
  exact ⟨hcost, hbw, rfl, rfl, rfl⟩

/-- A concrete 3-node chain: A—B (latency 5, bandwidth 100) and
B—C (latency 7, bandwidth 50). -/
def c7g : Graph :=
  { nodes := ["A", "B", "C"],
    edges := [("A", "B", ⟨some 5, some 100⟩), ("B", "C", ⟨some 7, some 50⟩)] }

/-- Witness for C7 on the concrete 3-node chain. -/
theorem c7_path_metrics_witness :
    (c7g.get_path_info ["A", "B", "C"]).total_latency =
      (((["A", "B", "C"] : List String).zip ["B", "C"]).map
        (fun pr => (c7g.weightOf pr).getD 0)).sum ∧
    (c7g.get_path_info ["A", "B", "C"]).throughput =
      (c7g.get_path_info ["A", "B", "C"]).bottleneck_bandwidth :=
  ⟨(c7_path_metrics c7g ["A", "B", "C"] (by decide) (by decide) (by decide)).1,
   (c7_path_metrics c7g ["A", "B", "C"] (by decide) (by decide)
      (by decide)).2.2.1⟩

/-! ## Shortest-path existence and `compute_shortest_path` (C8) -/

/-- A Boolean adjacency chain: every two consecutive nodes of the list are
joined by an edge of the graph. -/
def chainAdj (g : Graph) : List String → Bool
  | [] => true
  | [_] => true
  | a :: b :: rest => g.adj a b && chainAdj g (b :: rest)

/-- `p` is a genuine path of `g` from `s` to `t`: non-empty, starts at
`s`, ends at `t`, and every consecutive pair is an edge. -/
def isPath (g : Graph) (s t : String) (p : List String) : Bool :=
  (p.head? == some s) && (p.getLast? == some t) && chainAdj g p

/-- Modelled from the spec: `nx.shortest_path` is third-party library code
(NetworkX), not part of this repository.  The spec's contract is
`shortest_path(source, destination) -> ordered sequence of node
identities | NO_PATH`, NO_PATH arising exactly when the graph is
disconnected between the endpoints.  This fuelled depth-first search
stands in for that query; the claims only rely on its soundness (a
returned list is a genuine path from source to destination). -/
def findPathAux (g : Graph) (t : String) :
    Nat → String → List String → Option (List String)
  | 0, _, _ => none
  | fuel + 1, s, visited =>
      if s == t then some [s]
      else
        g.nodes.findSome? (fun n =>
          if g.adj s n && !(visited.contains n) then
            match findPathAux g t fuel n (n :: visited) with
            | some p => some (s :: p)
            | none => none
          else none)

/-- The abstracted library shortest-path query: search with enough fuel to
visit every node. -/
def findPath (g : Graph) (s t : String) : Option (List String) :=
  findPathAux g t (g.nodes.length + 1) s [s]

lemma findPathAux_sound (g : Graph) (t : String) :
    ∀ (fuel : Nat) (s : String) (visited : List String) (p : List String),
      findPathAux g t fuel s visited = some p → isPath g s t p = true := by
  intro fuel
  induction fuel with
  | zero =>
      intro s visited p h
      exact absurd h (by simp [findPathAux])
  | succ fuel ih =>
      intro s visited p h
      unfold findPathAux at h
      split at h
      · rename_i hst
        simp only [Option.some.injEq] at h
        subst h
        have hst' : s = t := by simpa using hst
        subst hst'
        simp [isPath, chainAdj]
      · obtain ⟨n, hn, hfn⟩ := List.exists_of_findSome?_eq_some h
        split at hfn
        · rename_i hcond
          cases hrec : findPathAux g t fuel n (n :: visited) with
          | none => rw [hrec] at hfn; cases hfn
          | some pp =>
              rw [hrec] at hfn
              simp only [Option.some.injEq] at hfn
              subst hfn
              have hp := ih n (n :: visited) pp hrec
              simp only [isPath, Bool.and_eq_true, beq_iff_eq] at hp ⊢
              obtain ⟨⟨hhead, hlast⟩, hchain⟩ := hp
              have hadj : g.adj s n = true := by
                simp only [Bool.and_eq_true] at hcond
                exact hcond.1
              cases pp with
              | nil => cases hhead
              | cons x xs =>
                  simp only [List.head?, Option.some.injEq] at hhead
                  subst hhead
                  refine ⟨⟨rfl, ?_⟩, ?_⟩
                  · rw [List.getLast?_cons_cons]
                    exact hlast
                  · simp only [chainAdj, Bool.and_eq_true]
                    exact ⟨hadj, hchain⟩
        · cases hfn

lemma findPath_sound (g : Graph) (s t : String) (p : List String)
    (h : findPath g s t = some p) : isPath g s t p = true :=
  findPathAux_sound g t (g.nodes.length + 1) s [s] p h

/-- The `ValueError`s raised by `DijkstraRouter.compute_shortest_path`
(router.py lines 42-64). -/
inductive RouterError where
  | startNotInGraph
  | endNotInGraph
  | sameNode
  | unknownMetric
deriving DecidableEq, Repr

/-- `DijkstraRouter.compute_shortest_path` (router.py lines 23-70):
validates that both endpoints are in the graph (raising otherwise), then
rejects equal endpoints, then queries the library shortest-path routine
under the selected metric (both metrics agree on path existence), mapping
the library's no-path outcome to `None`.  An unknown metric raises. -/
def compute_shortest_path (g : Graph) (start_node_id end_node_id : String)
    (metric : String) : Except RouterError (Option (List String)) :=
  if !(g.nodes.contains start_node_id) then .error .startNotInGraph
  else if !(g.nodes.contains end_node_id) then .error .endNotInGraph
  else if start_node_id == end_node_id then .error .sameNode
  else if metric == "latency" then
    .ok (findPath g start_node_id end_node_id)
  else if metric == "hops" then
    .ok (findPath g start_node_id end_node_id)
  else .error .unknownMetric

/-- C8: `compute_shortest_path` signals an error (an exception, not a
return value) when an endpoint is missing from the graph or when source
equals destination; when both endpoints exist and differ it never raises,
and it returns the distinct NO_PATH result `none` whenever the graph has
no path between the endpoints. -/
theorem c8_compute_shortest_path (g : Graph) (s t : String) :
    ((g.nodes.contains s = false ∨ g.nodes.contains t = false) →
      ∃ e, compute_shortest_path g s t "latency" = .error e) ∧
    (s = t → ∃ e, compute_shortest_path g s t "latency" = .error e) ∧
    (g.nodes.contains s = true → g.nodes.contains t = true → s ≠ t →
      compute_shortest_path g s t "latency" = .ok (findPath g s t) ∧
      ((∀ p, isPath g s t p = false) →
        compute_shortest_path g s t "latency" = .ok none)) := by
  refine ⟨?_, ?_, ?_⟩
  · intro hmiss
    unfold compute_shortest_path
    rcases hmiss with hmiss | hmiss
    · rw [if_pos (by rw [hmiss]; rfl)]
      exact ⟨.startNotInGraph, rfl⟩
    · by_cases hs : g.nodes.contains s
      · rw [if_neg (by rw [hs]; simp), if_pos (by rw [hmiss]; rfl)]
        exact ⟨.endNotInGraph, rfl⟩
      · rw [if_pos (by simpa using hs)]
        exact ⟨.startNotInGraph, rfl⟩
  · intro hst
    subst hst
    unfold compute_shortest_path
    by_cases hs : g.nodes.contains s
    · rw [if_neg (by rw [hs]; simp), if_neg (by rw [hs]; simp),
        if_pos (by simp)]
      exact ⟨.sameNode, rfl⟩
    · rw [if_pos (by simpa using hs)]
      exact ⟨.startNotInGraph, rfl⟩
  · intro hs ht hne
    have hok : compute_shortest_path g s t "latency" =
        .ok (findPath g s t) := by
      unfold compute_shortest_path
      rw [if_neg (by rw [hs]; simp), if_neg (by rw [ht]; simp),
        if_neg (by simpa using hne), if_pos (by simp)]
    refine ⟨hok, ?_⟩
    intro hnopath
    rw [hok]
    cases hfp : findPath g s t with
    | none => rfl
    | some p =>
        have := findPath_sound g s t p hfp
        rw [hnopath p] at this
        cases this

/-- A concrete disconnected graph: two nodes, no edges. -/
def c8g : Graph := { nodes := ["A", "B"], edges := [] }

lemma c8g_no_path : ∀ p, isPath c8g "A" "B" p = false := by
  intro p
  cases p with
  | nil => rfl
  | cons a as =>
      cases as with
      | nil =>
          simp only [isPath, chainAdj, List.head?, List.getLast?,
            Bool.and_eq_true, Bool.and_true]
          by_cases ha : a = "A"
          · subst ha
            decide
          · have : (some a == some "A") = false := by
              simp [ha]
            simp [this]
      | cons b bs =>
          have hadj : c8g.adj a b = false := rfl
          simp [isPath, chainAdj, hadj]

/-- Witness for C8: on the concrete disconnected graph the call returns
the NO_PATH value `none`, not an error. -/
theorem c8_compute_shortest_path_witness :
    compute_shortest_path c8g "A" "B" "latency" = .ok none :=
  ((c8_compute_shortest_path c8g "A" "B").2.2 (by decide) (by decide)
    (by decide)).2 c8g_no_path

/-! ## Packet creation (C9) -/

/-- `PathManager.set_path` composed with `get_current_path_nodes`
(router.py lines 237-297): computes the shortest path under the latency
metric; a raised `ValueError` is caught and turned into failure, and the
NO_PATH outcome is failure as well; on success the resolved node list is
available. -/
def set_path (g : Graph) (source_id dest_id : String) :
    Option (List String) :=
  match compute_shortest_path g source_id dest_id "latency" with
  | .error _ => none
  | .ok none => none
  | .ok (some path_nodes) => some path_nodes

/-- The mutable state read and written by
`QueueAwarePacketManager.create_packet`: the NetworkManager's node
registry, the packet counter, the packet lists, and the per-packet
metrics records that `LatencyThroughputEngine.create_packet_metrics`
appends (keyed by packet id). -/
structure PMState where
  nodes : List String
  packet_counter : Nat
  all_packets : List Packet
  active_packets : List (String × Packet)
  metrics_records : List String
deriving DecidableEq, Repr

/-- `QueueAwarePacketManager.create_packet` (congestion.py lines
384-437): both endpoints are validated against the node registry and
equal endpoints rejected before any mutation; then the counter is bumped,
the path resolved (failure returns `None`, with the counter already
bumped), and on success the Packet is built in state QUEUED with
`current_node_id` overwritten to the source, appended to
`all_packets`/`active_packets`, and its metrics record created.  The id
`f"PKT{counter:04d}"` is modelled without zero padding. -/
def create_packet (g : Graph) (st : PMState) (source_id dest_id : String)
    (size : Nat) (current_time : ℚ) : PMState × Option Packet :=
  if !(st.nodes.contains source_id) || !(st.nodes.contains dest_id) then
    (st, none)
  else if source_id == dest_id then (st, none)
  else
    let counter := st.packet_counter + 1
    let packet_id := "PKT" ++ toString counter
    let st1 := { st with packet_counter := counter }
    match set_path g source_id dest_id with
    | none => (st1, none)
    | some path_nodes =>
        let packet : Packet :=
          { id := packet_id, source_node_id := source_id,
            destination_node_id := dest_id, creation_time := current_time,
            sent_time := current_time, delivery_time := 0, size := size,
            state := .QUEUED, path := path_nodes, path_index := 0,
            current_node_id := source_id, current_link_index := 0,
            link_start_time := 0, link_latency := 0 }
        ({ st1 with
            all_packets := st1.all_packets ++ [packet]
            active_packets := st1.active_packets ++ [(packet_id, packet)]
            metrics_records := st1.metrics_records ++ [packet_id] },
         some packet)

/-- C9: `create_packet` called with an unknown source node, an unknown
destination node, or equal endpoints returns the rejected result `None`
synchronously and mutates no state: the manager state (packet counter,
packet lists, metrics records) is returned unchanged and no Packet is
produced. -/
theorem c9_create_packet_invalid (g : Graph) (st : PMState)
    (source_id dest_id : String) (size : Nat) (current_time : ℚ)
    (hbad : st.nodes.contains source_id = false ∨
      st.nodes.contains dest_id = false ∨ source_id = dest_id) :
    create_packet g st source_id dest_id size current_time = (st, none) := by
  unfold create_packet
  rcases hbad with h | h | h
  · rw [if_pos (by simp only [Bool.or_eq_true, Bool.not_eq_eq_eq_not,
      Bool.not_true]; exact Or.inl h)]
  · rw [if_pos (by simp only [Bool.or_eq_true, Bool.not_eq_eq_eq_not,
      Bool.not_true]; exact Or.inr h)]
  · by_cases hc :
        (!(st.nodes.contains source_id) || !(st.nodes.contains dest_id)) = true
    · rw [if_pos hc]
    · rw [if_neg hc, if_pos (by simp [h])]

/-- A concrete manager state with two known nodes and a non-zero
counter. -/
def c9st : PMState :=
  { nodes := ["A", "B"], packet_counter := 3, all_packets := [],
    active_packets := [], metrics_records := [] }

/-- Witness for C9: equal endpoints on a concrete state — rejected with
the state unchanged. -/
theorem c9_create_packet_invalid_witness :
    create_packet ⟨[], []⟩ c9st "A" "A" 1024 0 = (c9st, none) :=
  c9_create_packet_invalid ⟨[], []⟩ c9st "A" "A" 1024 0
    (Or.inr (Or.inr rfl))

end CloudNetSim
